import Mathlib

/-!
Shallow embedding of the `locale-types` repository (files `src/lib.rs`,
`src/id.rs`, `src/string.rs`).

Rust strings are modelled as lists of characters (`Str`), and Rust
`str::len` (the UTF-8 byte count) is modelled by `strLen`.  The Unicode
character classifiers used by the source (`char::is_lowercase`,
`char::is_uppercase`, `char::is_whitespace`, and the regex classes
`[a-z]`, `[A-Z]`, `[a-zA-Z0-9\-_]`, `\w`) are modelled by their ASCII
restrictions, on which they are exact; the locale grammar in the source
only accepts ASCII input.
-/

namespace LocaleTypes

/-- Rust strings, modelled as lists of characters. -/
abbrev Str := List Char

/-- ASCII restriction of Rust `char::is_lowercase` (also the regex class `[a-z]`). -/
def isLowercase (c : Char) : Bool := 97 ≤ c.toNat && c.toNat ≤ 122

/-- ASCII restriction of Rust `char::is_uppercase` (also the regex class `[A-Z]`). -/
def isUppercase (c : Char) : Bool := 65 ≤ c.toNat && c.toNat ≤ 90

/-- The regex class `[0-9]`. -/
def isDigit (c : Char) : Bool := 48 ≤ c.toNat && c.toNat ≤ 57

/-- ASCII restriction of Rust `char::is_whitespace`:
space, tab, line feed, vertical tab, form feed, carriage return. -/
def isWhitespace (c : Char) : Bool :=
  c.toNat = 32 || c.toNat = 9 || c.toNat = 10 || c.toNat = 11 || c.toNat = 12 || c.toNat = 13

/-- The regex class `[a-zA-Z0-9\-_]` used for the code-set group. -/
def isCodeSetChar (c : Char) : Bool :=
  isLowercase c || isUppercase c || isDigit c || c.toNat = 45 || c.toNat = 95

/-- ASCII restriction of the regex class `\w` used for the modifier group. -/
def isWordChar (c : Char) : Bool :=
  isLowercase c || isUppercase c || isDigit c || c.toNat = 95

/-- The number of bytes of the UTF-8 encoding of a character. -/
def utf8Len (c : Char) : Nat :=
  if c.toNat < 0x80 then 1
  else if c.toNat < 0x800 then 2
  else if c.toNat < 0x10000 then 3
  else 4

/-- Rust `str::len`: the number of UTF-8 bytes of the string. -/
def strLen (s : Str) : Nat := (s.map utf8Len).sum

/-- `LocaleError` from `src/lib.rs`. -/
inductive LocaleError
  | InvalidLocaleString
  | InvalidLanguageCode
  | InvalidTerritoryCode
  | InvalidCodeSet
  | InvalidModifier
  | UnknownLocale
  | UnsetCategory
  | OSError
  | Unsupported
  deriving DecidableEq, Repr

/-- `ParseError` from `src/string.rs`. -/
inductive ParseError
  | EmptyString
  | PosixUnsupported
  | RegexFailure
  | InvalidLanguageCode
  | InvalidTerritoryCode
  | InvalidCodeSet
  | InvalidModifier
  | InvalidPath
  deriving DecidableEq, Repr

/-- The struct `LocaleString` from `src/string.rs`. -/
structure LocaleString where
  language_code : Str
  territory : Option Str
  code_set : Option Str
  modifier : Option Str
  deriving DecidableEq, Repr

/-- `LocaleResult<T>` from `src/lib.rs`. -/
abbrev LocaleResult (α : Type) := Except LocaleError α

/-- `SEP_TERRITORY` from `src/string.rs`. -/
def SEP_TERRITORY : Char := '_'

/-- `SEP_CODE_SET` from `src/string.rs`. -/
def SEP_CODE_SET : Char := '.'

/-- `SEP_MODIFIER` from `src/string.rs`. -/
def SEP_MODIFIER : Char := '@'

/-- `LocaleString::new` (`src/string.rs`, lines 96 to 107). -/
def new (language_code : Str) : LocaleResult LocaleString :=
  if strLen language_code != 2 || !(language_code.all isLowercase) then
    Except.error LocaleError.InvalidLanguageCode
  else
    Except.ok
      { language_code := language_code, territory := none, code_set := none, modifier := none }

/-- `LocaleString::with_language` (`src/string.rs`, lines 109 to 120). -/
def with_language (self : LocaleString) (language_code : Str) : LocaleResult LocaleString :=
  if strLen language_code != 2 || !(language_code.all isLowercase) then
    Except.error LocaleError.InvalidLanguageCode
  else
    Except.ok
      { language_code := language_code, territory := self.territory,
        code_set := self.code_set, modifier := self.modifier }

/-- `LocaleString::with_territory` (`src/string.rs`, lines 122 to 136). -/
def with_territory (self : LocaleString) (territory : Str) : LocaleResult LocaleString :=
  if decide (strLen territory < 2) || decide (strLen territory > 2)
      || !(territory.all isUppercase) then
    Except.error LocaleError.InvalidTerritoryCode
  else
    Except.ok
      { language_code := self.language_code, territory := some territory,
        code_set := self.code_set, modifier := self.modifier }

/-- `LocaleString::with_code_set` (`src/string.rs`, lines 138 to 148). -/
def with_code_set (self : LocaleString) (code_set : Str) : LocaleResult LocaleString :=
  if code_set.all isWhitespace then
    Except.error LocaleError.InvalidCodeSet
  else
    Except.ok
      { language_code := self.language_code, territory := self.territory,
        code_set := some code_set, modifier := self.modifier }

/-- `LocaleString::with_modifier` (`src/string.rs`, lines 150 to 157). -/
def with_modifier (self : LocaleString) (modifier : Str) : LocaleResult LocaleString :=
  Except.ok
    { language_code := self.language_code, territory := self.territory,
      code_set := self.code_set, modifier := some modifier }

/-- `LocaleString::with_modifiers` (`src/string.rs`, lines 159 to 175).
The `HashMap<K, V>` argument is modelled as a list of key-value pairs of
already-displayed strings, in iteration order (iteration order of a Rust
`HashMap` is unspecified); `format!("\x7b\x7d=\x7b\x7d", key, value)`
becomes `key ++ '=' :: value` and `Vec::join(";")` becomes
`List.intercalate [SEP]`. -/
def with_modifiers (self : LocaleString) (modifiers : List (Str × Str)) :
    LocaleResult LocaleString :=
  Except.ok
    { language_code := self.language_code, territory := self.territory,
      code_set := self.code_set,
      modifier :=
        some (List.intercalate [';'] (modifiers.map (fun kv => kv.1 ++ '=' :: kv.2))) }

/-- `impl Display for LocaleString::fmt` (`src/string.rs`, lines 194 to 217):
the serialized (`to_string`) form of an identifier. -/
def format (self : LocaleString) : Str :=
  self.language_code
    ++ (match self.territory with
        | some v => SEP_TERRITORY :: v
        | none => [])
    ++ (match self.code_set with
        | some v => SEP_CODE_SET :: v
        | none => [])
    ++ (match self.modifier with
        | some v => SEP_MODIFIER :: v
        | none => [])

/-- The four capture groups of the parsing regex
`^([a-z][a-z]+)(_[A-Z][A-Z]+)?(\.[A-Z][a-zA-Z0-9\-_]+)?(@\w+)?$`
(`src/string.rs`, line 225).  Each optional group is stored as matched,
leading separator included, exactly as `Captures::get` returns it. -/
structure Captures where
  language : Str
  territory : Option Str
  code_set : Option Str
  modifier : Option Str
  deriving DecidableEq, Repr

/-- Matcher for the optional second regex group `(_[A-Z][A-Z]+)?` at the
front of the remaining input.  Returns the group (if taken) and the rest of
the input, or `none` when the whole regex cannot match.  An underscore can
be consumed by no later part of the pattern, so a leading underscore forces
this group, and the greedy `[A-Z]+` run is maximal because no later part of
the pattern can start with an uppercase letter. -/
def matchTerritory (s : Str) : Option (Option Str × Str) :=
  match s with
  | [] => some (none, [])
  | x :: r =>
    if x = '_' then
      if 2 ≤ (r.takeWhile isUppercase).length then
        some (some ('_' :: r.takeWhile isUppercase), r.dropWhile isUppercase)
      else none
    else some (none, x :: r)

/-- Matcher for the optional third regex group `(\.[A-Z][a-zA-Z0-9\-_]+)?`,
in the style of `matchTerritory`: a leading dot forces the group, and the
greedy class run is maximal because the only part of the pattern that can
follow starts with an at sign, which is outside the class. -/
def matchCodeSet (s : Str) : Option (Option Str × Str) :=
  match s with
  | [] => some (none, [])
  | [x] => if x = '.' then none else some (none, [x])
  | x :: c :: r2 =>
    if x = '.' then
      if isUppercase c then
        if 1 ≤ (r2.takeWhile isCodeSetChar).length then
          some (some ('.' :: c :: r2.takeWhile isCodeSetChar), r2.dropWhile isCodeSetChar)
        else none
      else none
    else some (none, x :: c :: r2)

/-- Matcher for the optional fourth regex group `(@\w+)?` followed by the
anchor `$`: either the input is exhausted, or it is an at sign followed by
a nonempty run of word characters reaching the end. -/
def matchModifier (s : Str) : Option (Option Str) :=
  match s with
  | [] => some none
  | x :: r =>
    if x = '@' then
      if 1 ≤ r.length ∧ r.all isWordChar = true then some (some ('@' :: r)) else none
    else none

/-- `RE.captures` for the anchored regex
`^([a-z][a-z]+)(_[A-Z][A-Z]+)?(\.[A-Z][a-zA-Z0-9\-_]+)?(@\w+)?$`
(`src/string.rs`, lines 223 to 227, 237).  The regex is unambiguous: the
first group is the maximal leading run of lowercase letters (nothing later
in the pattern can start with a lowercase letter), and each optional group
is forced by its distinctive leading separator.  The theorems
`captures_sound` and `captures_complete` below prove this function equal
to the declarative grammar `RegexMatch`. -/
def captures (s : Str) : Option Captures :=
  if 2 ≤ (s.takeWhile isLowercase).length then
    match matchTerritory (s.dropWhile isLowercase) with
    | none => none
    | some (terr, r2) =>
      match matchCodeSet r2 with
      | none => none
      | some (cs, r3) =>
        match matchModifier r3 with
        | none => none
        | some m =>
          some { language := s.takeWhile isLowercase, territory := terr,
                 code_set := cs, modifier := m }
  else none

/-- The outcome of `FromStr::from_str`: a parsed value, a returned
`ParseError`, or a panic raised by one of the `unwrap()` calls on the
internal constructor and setter results. -/
inductive ParseOutcome
  | ok (locale : LocaleString)
  | err (e : ParseError)
  | panic
  deriving DecidableEq, Repr

/-- The `if let Some(group_str) = groups.get(2)` step of `from_str`:
`with_territory(group_str.as_str()[1..]).unwrap()`, with `none` standing
for the panic of `unwrap` on an `Err`. -/
def applyTerritory (l : LocaleString) : Option Str → Option LocaleString
  | none => some l
  | some g =>
    match with_territory l (g.drop 1) with
    | Except.ok l2 => some l2
    | Except.error _ => none

/-- The `groups.get(3)` step of `from_str`:
`with_code_set(group_str.as_str()[1..]).unwrap()`. -/
def applyCodeSet (l : LocaleString) : Option Str → Option LocaleString
  | none => some l
  | some g =>
    match with_code_set l (g.drop 1) with
    | Except.ok l2 => some l2
    | Except.error _ => none

/-- The `groups.get(4)` step of `from_str`:
`with_modifier(group_str.as_str()[1..]).unwrap()`. -/
def applyModifier (l : LocaleString) : Option Str → Option LocaleString
  | none => some l
  | some g =>
    match with_modifier l (g.drop 1) with
    | Except.ok l2 => some l2
    | Except.error _ => none

/-- `impl FromStr for LocaleString::from_str` (`src/string.rs`, lines 222
to 260).  The `unwrap()` calls on the internal `new` and `with_*` results
are modelled explicitly: an `Err` under an `unwrap` produces
`ParseOutcome.panic`. -/
def from_str (s : Str) : ParseOutcome :=
  if s = [] then ParseOutcome.err ParseError.EmptyString
  else if s = ['C'] ∨ s = ['P', 'O', 'S', 'I', 'X'] then
    ParseOutcome.err ParseError.PosixUnsupported
  else
    match captures s with
    | none => ParseOutcome.err ParseError.RegexFailure
    | some g =>
      match new g.language with
      | Except.error _ => ParseOutcome.panic
      | Except.ok l0 =>
        match applyTerritory l0 g.territory with
        | none => ParseOutcome.panic
        | some l1 =>
          match applyCodeSet l1 g.code_set with
          | none => ParseOutcome.panic
          | some l2 =>
            match applyModifier l2 g.modifier with
            | none => ParseOutcome.panic
            | some l3 => ParseOutcome.ok l3

/-- The string matched by an optional regex group: empty when the group is
not taken. -/
def optStr : Option Str → Str
  | none => []
  | some g => g

/-- The language of the first regex group `([a-z][a-z]+)`. -/
def langShape (g : Str) : Prop := 2 ≤ g.length ∧ ∀ c ∈ g, isLowercase c = true

/-- The language of the optional second regex group `(_[A-Z][A-Z]+)?`. -/
def terrShape : Option Str → Prop
  | none => True
  | some g => ∃ r, g = '_' :: r ∧ 2 ≤ r.length ∧ ∀ c ∈ r, isUppercase c = true

/-- The language of the optional third regex group `(\.[A-Z][a-zA-Z0-9\-_]+)?`. -/
def csShape : Option Str → Prop
  | none => True
  | some g =>
    ∃ c r, g = '.' :: c :: r ∧ isUppercase c = true ∧ 1 ≤ r.length
      ∧ ∀ x ∈ r, isCodeSetChar x = true

/-- The language of the optional fourth regex group `(@\w+)?`. -/
def modShape : Option Str → Prop
  | none => True
  | some g => ∃ r, g = '@' :: r ∧ 1 ≤ r.length ∧ ∀ c ∈ r, isWordChar c = true

/-- Declarative reading of the anchored regex
`^([a-z][a-z]+)(_[A-Z][A-Z]+)?(\.[A-Z][a-zA-Z0-9\-_]+)?(@\w+)?$`:
the input splits into the four groups, each with the right shape. -/
def RegexMatch (s : Str) (g : Captures) : Prop :=
  s = g.language ++ optStr g.territory ++ optStr g.code_set ++ optStr g.modifier
  ∧ langShape g.language ∧ terrShape g.territory ∧ csShape g.code_set ∧ modShape g.modifier

/-- Whether a code-set field value matches what the third regex group
captures after its leading dot. -/
def codeSetGrammar (g : Str) : Bool :=
  match g with
  | [] => false
  | c :: r => isUppercase c && !r.isEmpty && r.all isCodeSetChar

/-- Whether a modifier field value matches what the fourth regex group
captures after its leading at sign. -/
def modifierGrammar (g : Str) : Bool := !g.isEmpty && g.all isWordChar

/-- A `LocaleString` whose optional fields, where present, lie in the
languages of the corresponding regex groups. -/
def grammarFriendly (l : LocaleString) : Bool :=
  (match l.code_set with
   | none => true
   | some g => codeSetGrammar g)
  && (match l.modifier with
      | none => true
      | some g => modifierGrammar g)

/-- The values reachable through the public constructors: `new` followed by
any chain of successful `with_*` calls. -/
inductive Built : LocaleString → Prop
  | of_new (code : Str) (l : LocaleString) :
      new code = Except.ok l → Built l
  | of_language (l0 : LocaleString) (code : Str) (l : LocaleString) :
      Built l0 → with_language l0 code = Except.ok l → Built l
  | of_territory (l0 : LocaleString) (code : Str) (l : LocaleString) :
      Built l0 → with_territory l0 code = Except.ok l → Built l
  | of_code_set (l0 : LocaleString) (code : Str) (l : LocaleString) :
      Built l0 → with_code_set l0 code = Except.ok l → Built l
  | of_modifier (l0 : LocaleString) (code : Str) (l : LocaleString) :
      Built l0 → with_modifier l0 code = Except.ok l → Built l
  | of_modifiers (l0 : LocaleString) (mods : List (Str × Str)) (l : LocaleString) :
      Built l0 → with_modifiers l0 mods = Except.ok l → Built l

/-- A predicate on the success value of a fallible operation; trivially true
on failure. -/
def onOk (r : LocaleResult LocaleString) (p : LocaleString → Prop) : Prop :=
  match r with
  | Except.ok l => p l
  | Except.error _ => True

theorem ascii_of_isLowercase {c : Char} (h : isLowercase c = true) : c.toNat < 128 := by
  simp [isLowercase] at h
  omega

theorem ascii_of_isUppercase {c : Char} (h : isUppercase c = true) : c.toNat < 128 := by
  simp [isUppercase] at h
  omega

theorem utf8Len_of_ascii {c : Char} (h : c.toNat < 128) : utf8Len c = 1 := by
  unfold utf8Len
  rw [if_pos h]

theorem strLen_cons (a : Char) (l : Str) : strLen (a :: l) = utf8Len a + strLen l := by
  simp [strLen]

theorem strLen_eq_length {s : Str} (h : ∀ c ∈ s, c.toNat < 128) : strLen s = s.length := by
  induction s with
  | nil => rfl
  | cons a l ih =>
    have ha : utf8Len a = 1 := utf8Len_of_ascii (h a (List.mem_cons_self a l))
    have hl := ih (fun c hc => h c (List.mem_cons_of_mem a hc))
    rw [strLen_cons, ha, hl, List.length_cons]
    omega

theorem strLen_of_lower {s : Str} (h : ∀ c ∈ s, isLowercase c = true) :
    strLen s = s.length :=
  strLen_eq_length (fun c hc => ascii_of_isLowercase (h c hc))

theorem strLen_of_upper {s : Str} (h : ∀ c ∈ s, isUppercase c = true) :
    strLen s = s.length :=
  strLen_eq_length (fun c hc => ascii_of_isUppercase (h c hc))

theorem not_whitespace_of_upper {c : Char} (h : isUppercase c = true) :
    isWhitespace c = false := by
  simp [isUppercase] at h
  simp [isWhitespace]
  omega

theorem new_eq (code : Str) :
    new code =
      (if code.length = 2 ∧ (∀ c ∈ code, isLowercase c = true) then
        Except.ok
          { language_code := code, territory := none, code_set := none, modifier := none }
      else Except.error LocaleError.InvalidLanguageCode) := by
  by_cases h : code.length = 2 ∧ (∀ c ∈ code, isLowercase c = true)
  · rw [if_pos h]
    have hlen : strLen code = code.length := strLen_of_lower h.2
    have hall : code.all isLowercase = true := List.all_eq_true.mpr h.2
    simp [new, hlen, h.1, hall]
  · rw [if_neg h]
    by_cases hall : ∀ c ∈ code, isLowercase c = true
    · have hlen : strLen code = code.length := strLen_of_lower hall
      have h2 : code.length ≠ 2 := fun hc => h ⟨hc, hall⟩
      simp [new, hlen, h2, List.all_eq_true.mpr hall]
    · have hf : code.all isLowercase = false := by
        cases hb : code.all isLowercase with
        | false => rfl
        | true => exact absurd (List.all_eq_true.mp hb) hall
      simp [new, hf]

theorem with_language_eq (l : LocaleString) (code : Str) :
    with_language l code =
      (if code.length = 2 ∧ (∀ c ∈ code, isLowercase c = true) then
        Except.ok
          { language_code := code, territory := l.territory,
            code_set := l.code_set, modifier := l.modifier }
      else Except.error LocaleError.InvalidLanguageCode) := by
  by_cases h : code.length = 2 ∧ (∀ c ∈ code, isLowercase c = true)
  · rw [if_pos h]
    have hlen : strLen code = code.length := strLen_of_lower h.2
    have hall : code.all isLowercase = true := List.all_eq_true.mpr h.2
    simp [with_language, hlen, h.1, hall]
  · rw [if_neg h]
    by_cases hall : ∀ c ∈ code, isLowercase c = true
    · have hlen : strLen code = code.length := strLen_of_lower hall
      have h2 : code.length ≠ 2 := fun hc => h ⟨hc, hall⟩
      simp [with_language, hlen, h2, List.all_eq_true.mpr hall]
    · have hf : code.all isLowercase = false := by
        cases hb : code.all isLowercase with
        | false => rfl
        | true => exact absurd (List.all_eq_true.mp hb) hall
      simp [with_language, hf]

theorem with_territory_eq (l : LocaleString) (code : Str) :
    with_territory l code =
      (if code.length = 2 ∧ (∀ c ∈ code, isUppercase c = true) then
        Except.ok
          { language_code := l.language_code, territory := some code,
            code_set := l.code_set, modifier := l.modifier }
      else Except.error LocaleError.InvalidTerritoryCode) := by
  by_cases h : code.length = 2 ∧ (∀ c ∈ code, isUppercase c = true)
  · rw [if_pos h]
    have hlen : strLen code = code.length := strLen_of_upper h.2
    have hall : code.all isUppercase = true := List.all_eq_true.mpr h.2
    simp [with_territory, hlen, h.1, hall]
  · rw [if_neg h]
    by_cases hall : ∀ c ∈ code, isUppercase c = true
    · have hlen : strLen code = code.length := strLen_of_upper hall
      have h2 : code.length ≠ 2 := fun hc => h ⟨hc, hall⟩
      have h2a : ¬ (code.length < 2 ∧ 2 < code.length) := by omega
      simp [with_territory, hlen, List.all_eq_true.mpr hall]
      omega
    · have hf : code.all isUppercase = false := by
        cases hb : code.all isUppercase with
        | false => rfl
        | true => exact absurd (List.all_eq_true.mp hb) hall
      simp [with_territory, hf]

theorem with_code_set_eq (l : LocaleString) (code : Str) :
    with_code_set l code =
      (if ∃ c ∈ code, isWhitespace c = false then
        Except.ok
          { language_code := l.language_code, territory := l.territory,
            code_set := some code, modifier := l.modifier }
      else Except.error LocaleError.InvalidCodeSet) := by
  by_cases h : ∃ c ∈ code, isWhitespace c = false
  · rw [if_pos h]
    obtain ⟨c, hc, hw⟩ := h
    have hf : code.all isWhitespace = false := by
      cases hb : code.all isWhitespace with
      | false => rfl
      | true => rw [List.all_eq_true.mp hb c hc] at hw; cases hw
    simp [with_code_set, hf]
  · rw [if_neg h]
    push_neg at h
    have hall : code.all isWhitespace = true := by
      refine List.all_eq_true.mpr (fun c hc => ?_)
      cases hb : isWhitespace c with
      | true => rfl
      | false => exact absurd hb (by simpa using h c hc)
    simp [with_code_set, hall]

theorem new_ok_inv {code : Str} {l : LocaleString} (h : new code = Except.ok l) :
    l = { language_code := code, territory := none, code_set := none, modifier := none }
      ∧ code.length = 2 ∧ ∀ c ∈ code, isLowercase c = true := by
  rw [new_eq] at h
  split at h
  · rename_i hc
    exact ⟨(Except.ok.injEq _ _).mp h |>.symm, hc⟩
  · cases h

theorem with_language_ok_inv {l0 : LocaleString} {code : Str} {l : LocaleString}
    (h : with_language l0 code = Except.ok l) :
    l = { language_code := code, territory := l0.territory,
          code_set := l0.code_set, modifier := l0.modifier }
      ∧ code.length = 2 ∧ ∀ c ∈ code, isLowercase c = true := by
  rw [with_language_eq] at h
  split at h
  · rename_i hc
    exact ⟨(Except.ok.injEq _ _).mp h |>.symm, hc⟩
  · cases h

theorem with_territory_ok_inv {l0 : LocaleString} {code : Str} {l : LocaleString}
    (h : with_territory l0 code = Except.ok l) :
    l = { language_code := l0.language_code, territory := some code,
          code_set := l0.code_set, modifier := l0.modifier }
      ∧ code.length = 2 ∧ ∀ c ∈ code, isUppercase c = true := by
  rw [with_territory_eq] at h
  split at h
  · rename_i hc
    exact ⟨(Except.ok.injEq _ _).mp h |>.symm, hc⟩
  · cases h

theorem with_code_set_ok_inv {l0 : LocaleString} {code : Str} {l : LocaleString}
    (h : with_code_set l0 code = Except.ok l) :
    l = { language_code := l0.language_code, territory := l0.territory,
          code_set := some code, modifier := l0.modifier } := by
  rw [with_code_set_eq] at h
  split at h
  · exact ((Except.ok.injEq _ _).mp h).symm
  · cases h

theorem with_modifier_ok_inv {l0 : LocaleString} {code : Str} {l : LocaleString}
    (h : with_modifier l0 code = Except.ok l) :
    l = { language_code := l0.language_code, territory := l0.territory,
          code_set := l0.code_set, modifier := some code } :=
  ((Except.ok.injEq _ _).mp h).symm

theorem with_modifiers_ok_inv {l0 : LocaleString} {mods : List (Str × Str)} {l : LocaleString}
    (h : with_modifiers l0 mods = Except.ok l) :
    l = { language_code := l0.language_code, territory := l0.territory,
          code_set := l0.code_set,
          modifier :=
            some (List.intercalate [';'] (mods.map (fun kv => kv.1 ++ '=' :: kv.2))) } :=
  ((Except.ok.injEq _ _).mp h).symm

theorem takeWhile_dropWhile_append (p : Char → Bool) (a b : Str)
    (ha : ∀ c ∈ a, p c = true)
    (hb : ∀ c, b.head? = some c → p c = false) :
    (a ++ b).takeWhile p = a ∧ (a ++ b).dropWhile p = b := by
  induction a with
  | nil =>
    simp only [List.nil_append]
    cases b with
    | nil => simp
    | cons x xs =>
      have hx := hb x rfl
      simp [List.takeWhile_cons, List.dropWhile_cons, hx]
  | cons y l ih =>
    have hy : p y = true := ha y (List.mem_cons_self y l)
    have ih2 := ih (fun c hc => ha c (List.mem_cons_of_mem y hc))
    simp [List.takeWhile_cons, List.dropWhile_cons, hy, ih2.1, ih2.2]

theorem matchTerritory_sound {s : Str} {o : Option Str} {rest : Str}
    (h : matchTerritory s = some (o, rest)) :
    s = optStr o ++ rest ∧ terrShape o := by
  cases s with
  | nil =>
    simp only [matchTerritory, Option.some.injEq, Prod.mk.injEq] at h
    obtain ⟨h1, h2⟩ := h
    subst h1; subst h2
    exact ⟨rfl, trivial⟩
  | cons x r =>
    simp only [matchTerritory] at h
    split at h
    · rename_i hx
      split at h
      · rename_i hlen
        simp only [Option.some.injEq, Prod.mk.injEq] at h
        obtain ⟨h1, h2⟩ := h
        subst h1; subst h2; subst hx
        refine ⟨?_, ?_⟩
        · simp [optStr, List.takeWhile_append_dropWhile]
        · exact ⟨r.takeWhile isUppercase, rfl, hlen,
            fun c hc => List.mem_takeWhile_imp hc⟩
      · cases h
    · simp only [Option.some.injEq, Prod.mk.injEq] at h
      obtain ⟨h1, h2⟩ := h
      subst h1; subst h2
      exact ⟨rfl, trivial⟩

theorem matchCodeSet_sound {s : Str} {o : Option Str} {rest : Str}
    (h : matchCodeSet s = some (o, rest)) :
    s = optStr o ++ rest ∧ csShape o := by
  cases s with
  | nil =>
    simp only [matchCodeSet, Option.some.injEq, Prod.mk.injEq] at h
    obtain ⟨h1, h2⟩ := h
    subst h1; subst h2
    exact ⟨rfl, trivial⟩
  | cons x r =>
    cases r with
    | nil =>
      simp only [matchCodeSet] at h
      split at h
      · cases h
      · simp only [Option.some.injEq, Prod.mk.injEq] at h
        obtain ⟨h1, h2⟩ := h
        subst h1; subst h2
        exact ⟨rfl, trivial⟩
    | cons c r2 =>
      simp only [matchCodeSet] at h
      split at h
      · rename_i hx
        split at h
        · rename_i hup
          split at h
          · rename_i hlen
            simp only [Option.some.injEq, Prod.mk.injEq] at h
            obtain ⟨h1, h2⟩ := h
            subst h1; subst h2; subst hx
            refine ⟨?_, ?_⟩
            · simp [optStr, List.takeWhile_append_dropWhile]
            · exact ⟨c, r2.takeWhile isCodeSetChar, rfl, hup, hlen,
                fun z hz => List.mem_takeWhile_imp hz⟩
          · cases h
        · cases h
      · simp only [Option.some.injEq, Prod.mk.injEq] at h
        obtain ⟨h1, h2⟩ := h
        subst h1; subst h2
        exact ⟨rfl, trivial⟩

theorem matchModifier_sound {s : Str} {o : Option Str}
    (h : matchModifier s = some o) :
    s = optStr o ∧ modShape o := by
  cases s with
  | nil =>
    simp only [matchModifier, Option.some.injEq] at h
    subst h
    exact ⟨rfl, trivial⟩
  | cons x r =>
    simp only [matchModifier] at h
    split at h
    · rename_i hx
      split at h
      · rename_i hcond
        simp only [Option.some.injEq] at h
        subst h; subst hx
        exact ⟨rfl, r, rfl, hcond.1, List.all_eq_true.mp hcond.2⟩
      · cases h
    · cases h

theorem captures_sound {s : Str} {g : Captures} (h : captures s = some g) :
    RegexMatch s g := by
  unfold captures at h
  split at h
  · rename_i hlen
    split at h
    · cases h
    · rename_i terr r2 hmt
      split at h
      · cases h
      · rename_i cs r3 hmcs
        split at h
        · cases h
        · rename_i m hmm
          simp only [Option.some.injEq] at h
          subst h
          obtain ⟨ht1, ht2⟩ := matchTerritory_sound hmt
          obtain ⟨hc1, hc2⟩ := matchCodeSet_sound hmcs
          obtain ⟨hm1, hm2⟩ := matchModifier_sound hmm
          refine ⟨?_, ⟨hlen, fun c hc => List.mem_takeWhile_imp hc⟩, ht2, hc2, hm2⟩
          have key : s = s.takeWhile isLowercase ++ (optStr terr ++ (optStr cs ++ optStr m)) :=
            calc s = s.takeWhile isLowercase ++ s.dropWhile isLowercase :=
                  (List.takeWhile_append_dropWhile ..).symm
              _ = s.takeWhile isLowercase ++ (optStr terr ++ r2) := by rw [← ht1]
              _ = s.takeWhile isLowercase ++ (optStr terr ++ (optStr cs ++ r3)) := by
                  rw [← hc1]
              _ = s.takeWhile isLowercase ++ (optStr terr ++ (optStr cs ++ optStr m)) := by
                  rw [← hm1]
          simpa [List.append_assoc] using key
  · cases h

theorem head_not_lower {t c m : Option Str}
    (ht : terrShape t) (hc : csShape c) (hm : modShape m) :
    ∀ x, (optStr t ++ optStr c ++ optStr m).head? = some x → isLowercase x = false := by
  intro x hx
  cases t with
  | some g =>
    obtain ⟨r, rfl, _, _⟩ := ht
    simp only [optStr, List.cons_append, List.head?_cons, Option.some.injEq] at hx
    subst hx
    decide
  | none =>
    cases c with
    | some g =>
      obtain ⟨ch, r, rfl, _, _, _⟩ := hc
      simp only [optStr, List.nil_append, List.cons_append, List.head?_cons,
        Option.some.injEq] at hx
      subst hx
      decide
    | none =>
      cases m with
      | some g =>
        obtain ⟨r, rfl, _, _⟩ := hm
        simp only [optStr, List.nil_append, List.head?_cons, Option.some.injEq] at hx
        subst hx
        decide
      | none => simp [optStr] at hx

theorem head_cs_mod {c m : Option Str} (hc : csShape c) (hm : modShape m) :
    ∀ x, (optStr c ++ optStr m).head? = some x → (isUppercase x = false ∧ x ≠ '_') := by
  intro x hx
  cases c with
  | some g =>
    obtain ⟨ch, r, rfl, _, _, _⟩ := hc
    simp only [optStr, List.cons_append, List.head?_cons, Option.some.injEq] at hx
    subst hx
    exact ⟨by decide, by decide⟩
  | none =>
    cases m with
    | some g =>
      obtain ⟨r, rfl, _, _⟩ := hm
      simp only [optStr, List.nil_append, List.head?_cons, Option.some.injEq] at hx
      subst hx
      exact ⟨by decide, by decide⟩
    | none => simp [optStr] at hx

theorem head_mod {m : Option Str} (hm : modShape m) :
    ∀ x, (optStr m).head? = some x → (isCodeSetChar x = false ∧ x ≠ '.') := by
  intro x hx
  cases m with
  | some g =>
    obtain ⟨r, rfl, _, _⟩ := hm
    simp only [optStr, List.head?_cons, Option.some.injEq] at hx
    subst hx
    exact ⟨by decide, by decide⟩
  | none => simp [optStr] at hx

theorem matchTerritory_complete (t : Option Str) (rest : Str) (ht : terrShape t)
    (hrest : ∀ x, rest.head? = some x → (isUppercase x = false ∧ x ≠ '_')) :
    matchTerritory (optStr t ++ rest) = some (t, rest) := by
  cases t with
  | none =>
    simp only [optStr, List.nil_append]
    cases rest with
    | nil => rfl
    | cons x xs =>
      have hx := (hrest x rfl).2
      simp [matchTerritory, hx]
  | some g =>
    obtain ⟨r, rfl, h2, hall⟩ := ht
    have hsp := takeWhile_dropWhile_append isUppercase r rest
      (fun c hc => hall c hc) (fun c hc => (hrest c hc).1)
    simp only [optStr, List.cons_append, matchTerritory, if_pos rfl]
    rw [hsp.1, hsp.2]
    simp [h2]

theorem matchCodeSet_complete (c : Option Str) (rest : Str) (hc : csShape c)
    (hrest : ∀ x, rest.head? = some x → (isCodeSetChar x = false ∧ x ≠ '.')) :
    matchCodeSet (optStr c ++ rest) = some (c, rest) := by
  cases c with
  | none =>
    simp only [optStr, List.nil_append]
    cases rest with
    | nil => rfl
    | cons x xs =>
      have hx := (hrest x rfl).2
      cases xs with
      | nil => simp [matchCodeSet, hx]
      | cons z zs => simp [matchCodeSet, hx]
  | some g =>
    obtain ⟨ch, r, rfl, hup, h1, hall⟩ := hc
    have hsp := takeWhile_dropWhile_append isCodeSetChar r rest
      (fun x hx => hall x hx) (fun x hx => (hrest x hx).1)
    simp only [optStr, List.cons_append, matchCodeSet, if_pos rfl]
    rw [hsp.1, hsp.2]
    simp [hup, h1]

theorem matchModifier_complete (m : Option Str) (hm : modShape m) :
    matchModifier (optStr m) = some m := by
  cases m with
  | none => rfl
  | some g =>
    obtain ⟨r, rfl, h1, hall⟩ := hm
    simp [optStr, matchModifier, h1]
    exact hall

theorem captures_complete {s : Str} {g : Captures} (h : RegexMatch s g) :
    captures s = some g := by
  obtain ⟨hs, ⟨h2, hlow⟩, hterr, hcs, hmod⟩ := h
  have hhead := head_not_lower hterr hcs hmod
  have hsp := takeWhile_dropWhile_append isLowercase g.language
    (optStr g.territory ++ optStr g.code_set ++ optStr g.modifier) hlow hhead
  have hmt := matchTerritory_complete g.territory (optStr g.code_set ++ optStr g.modifier)
    hterr (head_cs_mod hcs hmod)
  have hmcs := matchCodeSet_complete g.code_set (optStr g.modifier) hcs (head_mod hmod)
  have hmm := matchModifier_complete g.modifier hmod
  subst hs
  unfold captures
  simp only [List.append_assoc] at hsp ⊢
  rw [hsp.1, hsp.2, if_pos h2]
  simp only [hmt, hmcs, hmm]

theorem applyTerritory_some_inv {l0 l1 : LocaleString} {o : Option Str}
    (h : applyTerritory l0 o = some l1) (h0 : l0.territory = none) :
    l1 = { language_code := l0.language_code, territory := o.map (fun g => g.drop 1),
           code_set := l0.code_set, modifier := l0.modifier } := by
  obtain ⟨la, lt, lc, lm⟩ := l0
  simp only at h0
  subst h0
  cases o with
  | none =>
    simp only [applyTerritory, Option.some.injEq] at h
    subst h
    rfl
  | some t =>
    simp only [applyTerritory] at h
    split at h
    · rename_i l2 hw
      simp only [Option.some.injEq] at h
      subst h
      exact (with_territory_ok_inv hw).1
    · cases h

theorem applyCodeSet_some_inv {l0 l1 : LocaleString} {o : Option Str}
    (h : applyCodeSet l0 o = some l1) (h0 : l0.code_set = none) :
    l1 = { language_code := l0.language_code, territory := l0.territory,
           code_set := o.map (fun g => g.drop 1), modifier := l0.modifier } := by
  obtain ⟨la, lt, lc, lm⟩ := l0
  simp only at h0
  subst h0
  cases o with
  | none =>
    simp only [applyCodeSet, Option.some.injEq] at h
    subst h
    rfl
  | some t =>
    simp only [applyCodeSet] at h
    split at h
    · rename_i l2 hw
      simp only [Option.some.injEq] at h
      subst h
      exact with_code_set_ok_inv hw
    · cases h

theorem applyModifier_some_inv {l0 l1 : LocaleString} {o : Option Str}
    (h : applyModifier l0 o = some l1) (h0 : l0.modifier = none) :
    l1 = { language_code := l0.language_code, territory := l0.territory,
           code_set := l0.code_set, modifier := o.map (fun g => g.drop 1) } := by
  obtain ⟨la, lt, lc, lm⟩ := l0
  simp only at h0
  subst h0
  cases o with
  | none =>
    simp only [applyModifier, Option.some.injEq] at h
    subst h
    rfl
  | some t =>
    simp only [applyModifier] at h
    split at h
    · rename_i l2 hw
      simp only [Option.some.injEq] at h
      subst h
      exact with_modifier_ok_inv hw
    · cases h

theorem format_fields (lang : Str) (t c m : Option Str)
    (ht : terrShape t) (hc : csShape c) (hm : modShape m) :
    format ⟨lang, t.map (fun g => g.drop 1), c.map (fun g => g.drop 1),
            m.map (fun g => g.drop 1)⟩
      = lang ++ optStr t ++ optStr c ++ optStr m := by
  cases t with
  | none =>
    cases c with
    | none =>
      cases m with
      | none => simp [format, optStr]
      | some gm =>
        obtain ⟨rm, rfl, _, _⟩ := hm
        simp [format, optStr, SEP_MODIFIER]
    | some gc =>
      obtain ⟨cc, rc, rfl, _, _, _⟩ := hc
      cases m with
      | none => simp [format, optStr, SEP_CODE_SET]
      | some gm =>
        obtain ⟨rm, rfl, _, _⟩ := hm
        simp [format, optStr, SEP_CODE_SET, SEP_MODIFIER]
  | some gt =>
    obtain ⟨rt, rfl, _, _⟩ := ht
    cases c with
    | none =>
      cases m with
      | none => simp [format, optStr, SEP_TERRITORY]
      | some gm =>
        obtain ⟨rm, rfl, _, _⟩ := hm
        simp [format, optStr, SEP_TERRITORY, SEP_MODIFIER]
    | some gc =>
      obtain ⟨cc, rc, rfl, _, _, _⟩ := hc
      cases m with
      | none => simp [format, optStr, SEP_TERRITORY, SEP_CODE_SET]
      | some gm =>
        obtain ⟨rm, rfl, _, _⟩ := hm
        simp [format, optStr, SEP_TERRITORY, SEP_CODE_SET, SEP_MODIFIER]

theorem from_str_ok_inv {s : Str} {l : LocaleString} (h : from_str s = ParseOutcome.ok l) :
    format l = s := by
  unfold from_str at h
  split at h
  · cases h
  · split at h
    · cases h
    · cases hc : captures s with
      | none => simp only [hc] at h; cases h
      | some g =>
        simp only [hc] at h
        obtain ⟨hs, hlang, hterr, hcs, hmod⟩ := captures_sound hc
        cases hn : new g.language with
        | error e => simp only [hn] at h; cases h
        | ok l0 =>
          simp only [hn] at h
          obtain ⟨hl0, _, _⟩ := new_ok_inv hn
          subst hl0
          cases h1 : applyTerritory
              { language_code := g.language, territory := none,
                code_set := none, modifier := none } g.territory with
          | none => simp only [h1] at h; cases h
          | some l1 =>
            simp only [h1] at h
            have hl1 := applyTerritory_some_inv h1 rfl
            subst hl1
            cases h2 : applyCodeSet
                { language_code := g.language,
                  territory := g.territory.map (fun g => g.drop 1),
                  code_set := none, modifier := none } g.code_set with
            | none => simp only [h2] at h; cases h
            | some l2 =>
              simp only [h2] at h
              have hl2 := applyCodeSet_some_inv h2 rfl
              subst hl2
              cases h3 : applyModifier
                  { language_code := g.language,
                    territory := g.territory.map (fun g => g.drop 1),
                    code_set := g.code_set.map (fun g => g.drop 1),
                    modifier := none } g.modifier with
              | none => simp only [h3] at h; cases h
              | some l3 =>
                simp only [h3, ParseOutcome.ok.injEq] at h
                subst h
                have hl3 := applyModifier_some_inv h3 rfl
                subst hl3
                rw [format_fields g.language g.territory g.code_set g.modifier
                  hterr hcs hmod]
                exact hs.symm

theorem from_str_ok_of_captures {s : Str} {g : Captures}
    (hc : captures s = some g)
    (hl : g.language.length = 2)
    (ht : ∀ t ∈ g.territory, t.length = 3) :
    from_str s =
      ParseOutcome.ok
        { language_code := g.language,
          territory := g.territory.map (fun t => t.drop 1),
          code_set := g.code_set.map (fun t => t.drop 1),
          modifier := g.modifier.map (fun t => t.drop 1) } := by
  obtain ⟨hs, ⟨h2, hlow⟩, hterr, hcs, hmod⟩ := captures_sound hc
  obtain ⟨a, rest0, ha, halow⟩ : ∃ a r0, g.language = a :: r0 ∧ isLowercase a = true := by
    cases hg : g.language with
    | nil => rw [hg] at hl; cases hl
    | cons a r0 =>
      exact ⟨a, r0, rfl, hlow a (by rw [hg]; exact List.mem_cons_self a r0)⟩
  have hsform : s = a :: (rest0 ++ optStr g.territory ++ optStr g.code_set
      ++ optStr g.modifier) := by
    rw [hs, ha]
    simp
  have hne : s ≠ [] := by rw [hsform]; simp
  have hnc : ¬(s = ['C'] ∨ s = ['P', 'O', 'S', 'I', 'X']) := by
    rw [hsform]
    rintro (hcp | hcp)
    · simp only [List.cons.injEq] at hcp
      rw [hcp.1] at halow
      exact absurd halow (by decide)
    · simp only [List.cons.injEq] at hcp
      rw [hcp.1] at halow
      exact absurd halow (by decide)
  have step0 : new g.language =
      Except.ok { language_code := g.language, territory := none,
                  code_set := none, modifier := none } := by
    rw [new_eq, if_pos ⟨hl, hlow⟩]
  have step1 : applyTerritory
      { language_code := g.language, territory := none,
        code_set := none, modifier := none } g.territory =
      some { language_code := g.language,
             territory := g.territory.map (fun t => t.drop 1),
             code_set := none, modifier := none } := by
    cases hgt : g.territory with
    | none => rfl
    | some t =>
      rw [hgt] at hterr ht
      obtain ⟨r, rfl, hge2, hru⟩ := hterr
      have hlen3 : ('_' :: r).length = 3 := ht ('_' :: r) (by simp)
      have hrlen : r.length = 2 := by simp at hlen3; omega
      have hwt : with_territory
          { language_code := g.language, territory := none,
            code_set := none, modifier := none } r =
          Except.ok { language_code := g.language, territory := some r,
                      code_set := none, modifier := none } := by
        rw [with_territory_eq, if_pos ⟨hrlen, hru⟩]
      have hdrop : ('_' :: r).drop 1 = r := rfl
      simp only [applyTerritory, hdrop, hwt, Option.map_some']
  have step2 : applyCodeSet
      { language_code := g.language,
        territory := g.territory.map (fun t => t.drop 1),
        code_set := none, modifier := none } g.code_set =
      some { language_code := g.language,
             territory := g.territory.map (fun t => t.drop 1),
             code_set := g.code_set.map (fun t => t.drop 1),
             modifier := none } := by
    cases hgc : g.code_set with
    | none => rfl
    | some t =>
      rw [hgc] at hcs
      obtain ⟨ch, r, rfl, hup, hr1, hrall⟩ := hcs
      have hwc : with_code_set
          { language_code := g.language,
            territory := g.territory.map (fun t => t.drop 1),
            code_set := none, modifier := none } (ch :: r) =
          Except.ok { language_code := g.language,
                      territory := g.territory.map (fun t => t.drop 1),
                      code_set := some (ch :: r), modifier := none } := by
        rw [with_code_set_eq,
          if_pos ⟨ch, List.mem_cons_self ch r, not_whitespace_of_upper hup⟩]
      have hdrop : ('.' :: ch :: r).drop 1 = ch :: r := rfl
      simp only [applyCodeSet, hdrop, hwc, Option.map_some']
  have step3 : applyModifier
      { language_code := g.language,
        territory := g.territory.map (fun t => t.drop 1),
        code_set := g.code_set.map (fun t => t.drop 1),
        modifier := none } g.modifier =
      some { language_code := g.language,
             territory := g.territory.map (fun t => t.drop 1),
             code_set := g.code_set.map (fun t => t.drop 1),
             modifier := g.modifier.map (fun t => t.drop 1) } := by
    cases hgm : g.modifier with
    | none => rfl
    | some t => simp only [applyModifier, with_modifier, Option.map_some']
  unfold from_str
  rw [if_neg hne, if_neg hnc]
  simp only [hc, step0, step1, step2, step3]

theorem built_inv {l : LocaleString} (h : Built l) :
    l.language_code.length = 2 ∧ (∀ c ∈ l.language_code, isLowercase c = true)
      ∧ (∀ t ∈ l.territory, t.length = 2 ∧ ∀ c ∈ t, isUppercase c = true) := by
  induction h with
  | of_new code l hn =>
    obtain ⟨hl, hlen, hlow⟩ := new_ok_inv hn
    subst hl
    exact ⟨hlen, hlow, by simp⟩
  | of_language l0 code l hb hw ih =>
    obtain ⟨hl, hlen, hlow⟩ := with_language_ok_inv hw
    subst hl
    exact ⟨hlen, hlow, ih.2.2⟩
  | of_territory l0 code l hb hw ih =>
    obtain ⟨hl, hlen, hup⟩ := with_territory_ok_inv hw
    subst hl
    refine ⟨ih.1, ih.2.1, ?_⟩
    intro t htm
    simp at htm
    subst htm
    exact ⟨hlen, hup⟩
  | of_code_set l0 code l hb hw ih =>
    have hl := with_code_set_ok_inv hw
    subst hl
    exact ⟨ih.1, ih.2.1, ih.2.2⟩
  | of_modifier l0 code l hb hw ih =>
    have hl := with_modifier_ok_inv hw
    subst hl
    exact ⟨ih.1, ih.2.1, ih.2.2⟩
  | of_modifiers l0 mods l hb hw ih =>
    have hl := with_modifiers_ok_inv hw
    subst hl
    exact ⟨ih.1, ih.2.1, ih.2.2⟩

theorem codeSetGrammar_shape {g : Str} (h : codeSetGrammar g = true) :
    ∃ c r, g = c :: r ∧ isUppercase c = true ∧ 1 ≤ r.length
      ∧ ∀ x ∈ r, isCodeSetChar x = true := by
  cases g with
  | nil => simp [codeSetGrammar] at h
  | cons c r =>
    simp only [codeSetGrammar, Bool.and_eq_true, List.all_eq_true] at h
    refine ⟨c, r, rfl, h.1.1, ?_, h.2⟩
    cases r with
    | nil => simp at h
    | cons z zs => simp

theorem modifierGrammar_shape {g : Str} (h : modifierGrammar g = true) :
    1 ≤ g.length ∧ ∀ x ∈ g, isWordChar x = true := by
  simp only [modifierGrammar, Bool.and_eq_true, List.all_eq_true] at h
  refine ⟨?_, h.2⟩
  cases g with
  | nil => simp at h
  | cons z zs => simp

/-- C1 (counterexample): the round-trip law fails as stated.  The identifier
built by `new("en").with_code_set("utf-8")` is valid (both calls succeed),
but its serialized form `en.utf-8` is rejected by the parsing grammar
(the code-set group requires an uppercase first letter), so
`parse(format(I))` returns `RegexFailure` instead of `I`. -/
theorem c1_roundtrip_counterexample :
    new ['e', 'n'] =
      Except.ok { language_code := ['e', 'n'], territory := none,
                  code_set := none, modifier := none }
    ∧ with_code_set
        { language_code := ['e', 'n'], territory := none,
          code_set := none, modifier := none } ['u', 't', 'f', '-', '8'] =
      Except.ok { language_code := ['e', 'n'], territory := none,
                  code_set := some ['u', 't', 'f', '-', '8'], modifier := none }
    ∧ from_str (format { language_code := ['e', 'n'], territory := none,
                         code_set := some ['u', 't', 'f', '-', '8'], modifier := none })
      = ParseOutcome.err ParseError.RegexFailure := by
  refine ⟨rfl, rfl, rfl⟩

/-- C1 (amended): for every identifier built by `new` and a chain of
successful `with_*` calls whose code-set (when present) starts with an
uppercase letter followed by at least one character of `[a-zA-Z0-9\-_]`,
and whose modifier (when present) is a nonempty run of word characters,
re-parsing the serialized form yields the identifier back, equal in all
four fields. -/
theorem c1_roundtrip_grammatical (l : LocaleString) (hb : Built l)
    (hg : grammarFriendly l = true) :
    from_str (format l) = ParseOutcome.ok l := by
  obtain ⟨hlen, hlow, hterrinv⟩ := built_inv hb
  obtain ⟨la, lt, lc, lm⟩ := l
  simp only at hlen hlow hterrinv
  simp only [grammarFriendly, Bool.and_eq_true] at hg
  obtain ⟨hgc, hgm⟩ := hg
  have hmatch : RegexMatch (format ⟨la, lt, lc, lm⟩)
      ⟨la, lt.map (fun t => '_' :: t), lc.map (fun t => '.' :: t),
        lm.map (fun t => '@' :: t)⟩ := by
    refine ⟨?_, ⟨hlen.ge, hlow⟩, ?_, ?_, ?_⟩
    · cases lt <;> cases lc <;> cases lm <;>
        simp [format, optStr, SEP_TERRITORY, SEP_CODE_SET, SEP_MODIFIER]
    · cases lt with
      | none => trivial
      | some t =>
        have hti := hterrinv t (by simp)
        exact ⟨t, rfl, hti.1.ge, hti.2⟩
    · cases lc with
      | none => trivial
      | some cs =>
        obtain ⟨ch, r, hcr, hup, hr1, hrall⟩ := codeSetGrammar_shape hgc
        exact ⟨ch, r, by rw [hcr], hup, hr1, hrall⟩
    · cases lm with
      | none => trivial
      | some md =>
        obtain ⟨hm1, hmall⟩ := modifierGrammar_shape hgm
        exact ⟨md, rfl, hm1, hmall⟩
  have hl2 : (⟨la, lt.map (fun t => '_' :: t), lc.map (fun t => '.' :: t),
      lm.map (fun t => '@' :: t)⟩ : Captures).language.length = 2 := hlen
  have ht3 : ∀ t ∈ (⟨la, lt.map (fun t => '_' :: t), lc.map (fun t => '.' :: t),
      lm.map (fun t => '@' :: t)⟩ : Captures).territory, t.length = 3 := by
    cases lt with
    | none => simp
    | some t =>
      intro x hx
      simp at hx
      subst hx
      have hti := hterrinv t (by simp)
      simp [hti.1]
  have hres := from_str_ok_of_captures (captures_complete hmatch) hl2 ht3
  rw [hres]
  cases lt <;> cases lc <;> cases lm <;> simp

theorem c1_roundtrip_grammatical_witness :
    from_str (format { language_code := ['e', 'n'], territory := some ['U', 'S'],
                       code_set := some ['U', 'T', 'F', '-', '8'],
                       modifier := some ['L', 'a', 't', 'n'] })
      = ParseOutcome.ok { language_code := ['e', 'n'], territory := some ['U', 'S'],
                          code_set := some ['U', 'T', 'F', '-', '8'],
                          modifier := some ['L', 'a', 't', 'n'] } :=
  c1_roundtrip_grammatical _
    (Built.of_modifier
      { language_code := ['e', 'n'], territory := some ['U', 'S'],
        code_set := some ['U', 'T', 'F', '-', '8'], modifier := none }
      ['L', 'a', 't', 'n'] _
      (Built.of_code_set
        { language_code := ['e', 'n'], territory := some ['U', 'S'],
          code_set := none, modifier := none }
        ['U', 'T', 'F', '-', '8'] _
        (Built.of_territory
          { language_code := ['e', 'n'], territory := none,
            code_set := none, modifier := none }
          ['U', 'S'] _
          (Built.of_new ['e', 'n'] _ rfl)
          rfl)
        rfl)
      rfl)
    (by decide)

/-- C4 (counterexample): the grammar matches `abc` (its language group
accepts two or more lowercase letters), yet the internal `new` call then
fails the exactly-two-characters rule, so the `unwrap` panics: the error
branches behind the `unwrap` calls in `from_str` are reachable. -/
theorem c4_unwrap_counterexample :
    captures ['a', 'b', 'c'] =
      some { language := ['a', 'b', 'c'], territory := none,
             code_set := none, modifier := none }
    ∧ from_str ['a', 'b', 'c'] = ParseOutcome.panic := by
  decide

/-- C4 (amended): for a string the grammar matches, the internal
constructor and setter calls of `from_str` all succeed exactly when the
captured language group has two characters and the captured territory
group (when present) has three (the separator plus two letters); under
those bounds `from_str` cannot panic and returns a parsed value. -/
theorem c4_no_panic_when_exact (s : Str) (g : Captures)
    (hc : captures s = some g)
    (hl : g.language.length = 2)
    (ht : ∀ t ∈ g.territory, t.length = 3) :
    from_str s ≠ ParseOutcome.panic ∧ ∃ l, from_str s = ParseOutcome.ok l := by
  have h := from_str_ok_of_captures hc hl ht
  refine ⟨?_, _, h⟩
  rw [h]
  simp

theorem c4_no_panic_when_exact_witness :
    from_str ['e', 'n', '_', 'U', 'S'] ≠ ParseOutcome.panic
    ∧ ∃ l, from_str ['e', 'n', '_', 'U', 'S'] = ParseOutcome.ok l :=
  c4_no_panic_when_exact ['e', 'n', '_', 'U', 'S']
    { language := ['e', 'n'], territory := some ['_', 'U', 'S'],
      code_set := none, modifier := none }
    (by decide) (by decide)
    (by
      intro t htm
      rw [Option.mem_def] at htm
      injection htm with htm2
      subst htm2
      decide)

/-- C2: `new(code)` succeeds if and only if `code` is exactly two characters
long with every character lowercase, in which case the territory, code-set
and modifier fields are all absent; otherwise it fails with
`InvalidLanguageCode`. -/
theorem c2_new_validity (code : Str) :
    new code =
      (if code.length = 2 ∧ (∀ c ∈ code, isLowercase c = true) then
        Except.ok
          { language_code := code, territory := none, code_set := none, modifier := none }
      else Except.error LocaleError.InvalidLanguageCode) :=
  new_eq code

theorem c2_new_validity_witness :
    new ['e', 'n'] =
      Except.ok { language_code := ['e', 'n'], territory := none,
                  code_set := none, modifier := none } := by
  have h := c2_new_validity ['e', 'n']
  rw [if_pos (by decide)] at h
  exact h

/-- C3: `with_territory(code)` succeeds if and only if `code` is exactly two
characters, all uppercase, setting the territory field; otherwise it fails
with `InvalidTerritoryCode`. -/
theorem c3_with_territory_validity (l : LocaleString) (code : Str) :
    with_territory l code =
      (if code.length = 2 ∧ (∀ c ∈ code, isUppercase c = true) then
        Except.ok
          { language_code := l.language_code, territory := some code,
            code_set := l.code_set, modifier := l.modifier }
      else Except.error LocaleError.InvalidTerritoryCode) :=
  with_territory_eq l code

theorem c3_with_territory_validity_witness :
    with_territory { language_code := ['e', 'n'], territory := none,
                     code_set := none, modifier := none } ['U', 'S'] =
      Except.ok { language_code := ['e', 'n'], territory := some ['U', 'S'],
                  code_set := none, modifier := none } := by
  have h := c3_with_territory_validity
    { language_code := ['e', 'n'], territory := none,
      code_set := none, modifier := none } ['U', 'S']
  rw [if_pos (by decide)] at h
  exact h

/-- C5: every `with_*` operation is a pure function of the receiver (which
is never mutated in this functional embedding), and on success the returned
value agrees with the receiver on every field other than the one being
set. -/
theorem c5_with_frame (l : LocaleString) (lang t cs m : Str)
    (mods : List (Str × Str)) :
    onOk (with_language l lang)
      (fun r => r.territory = l.territory ∧ r.code_set = l.code_set
        ∧ r.modifier = l.modifier)
    ∧ onOk (with_territory l t)
      (fun r => r.language_code = l.language_code ∧ r.code_set = l.code_set
        ∧ r.modifier = l.modifier)
    ∧ onOk (with_code_set l cs)
      (fun r => r.language_code = l.language_code ∧ r.territory = l.territory
        ∧ r.modifier = l.modifier)
    ∧ onOk (with_modifier l m)
      (fun r => r.language_code = l.language_code ∧ r.territory = l.territory
        ∧ r.code_set = l.code_set)
    ∧ onOk (with_modifiers l mods)
      (fun r => r.language_code = l.language_code ∧ r.territory = l.territory
        ∧ r.code_set = l.code_set) := by
  refine ⟨?_, ?_, ?_, ?_, ?_⟩
  · unfold with_language
    split <;> simp [onOk]
  · unfold with_territory
    split <;> simp [onOk]
  · unfold with_code_set
    split <;> simp [onOk]
  · simp [onOk, with_modifier]
  · simp [onOk, with_modifiers]

/-- C6: `with_code_set(code)` succeeds if and only if `code` contains at
least one non-whitespace character, setting the code-set field; otherwise
(including for the empty string) it fails with `InvalidCodeSet`. -/
theorem c6_with_code_set_validity (l : LocaleString) (code : Str) :
    with_code_set l code =
      (if ∃ c ∈ code, isWhitespace c = false then
        Except.ok
          { language_code := l.language_code, territory := l.territory,
            code_set := some code, modifier := l.modifier }
      else Except.error LocaleError.InvalidCodeSet) :=
  with_code_set_eq l code

theorem c6_with_code_set_validity_witness :
    with_code_set { language_code := ['e', 'n'], territory := none,
                    code_set := none, modifier := none } ['U', 'T', 'F', '-', '8'] =
      Except.ok { language_code := ['e', 'n'], territory := none,
                  code_set := some ['U', 'T', 'F', '-', '8'], modifier := none } := by
  have h := c6_with_code_set_validity
    { language_code := ['e', 'n'], territory := none,
      code_set := none, modifier := none } ['U', 'T', 'F', '-', '8']
  rw [if_pos (by decide)] at h
  exact h

/-- C7: `with_modifier(text)` always succeeds, for every receiver and every
string (the empty string included), setting the modifier to the given
text; it never returns an error. -/
theorem c7_with_modifier_total (l : LocaleString) (m : Str) :
    with_modifier l m =
      Except.ok
        { language_code := l.language_code, territory := l.territory,
          code_set := l.code_set, modifier := some m } :=
  rfl

/-- C8: parsing the empty string fails with `EmptyString`; parsing `C` or
`POSIX` fails with `PosixUnsupported`; parsing `en` succeeds with language
code `en` and the territory, code-set and modifier fields absent. -/
theorem c8_parse_edge_cases :
    from_str [] = ParseOutcome.err ParseError.EmptyString
    ∧ from_str ['C'] = ParseOutcome.err ParseError.PosixUnsupported
    ∧ from_str ['P', 'O', 'S', 'I', 'X'] = ParseOutcome.err ParseError.PosixUnsupported
    ∧ from_str ['e', 'n'] =
        ParseOutcome.ok { language_code := ['e', 'n'], territory := none,
                          code_set := none, modifier := none } := by
  refine ⟨rfl, rfl, rfl, rfl⟩

/-- C9: whenever `from_str` parses a string successfully, serializing the
resulting value reproduces the input exactly: the separators stripped from
the captured groups are re-inserted unchanged by formatting. -/
theorem c9_parse_then_format (s : Str) (l : LocaleString)
    (h : from_str s = ParseOutcome.ok l) :
    format l = s :=
  from_str_ok_inv h

theorem c9_parse_then_format_witness :
    from_str ['e', 'n', '_', 'U', 'S', '.', 'U', 'T', 'F', '-', '8', '@', 'L', 'a', 't', 'n']
      = ParseOutcome.ok { language_code := ['e', 'n'], territory := some ['U', 'S'],
                          code_set := some ['U', 'T', 'F', '-', '8'],
                          modifier := some ['L', 'a', 't', 'n'] }
    ∧ format { language_code := ['e', 'n'], territory := some ['U', 'S'],
               code_set := some ['U', 'T', 'F', '-', '8'],
               modifier := some ['L', 'a', 't', 'n'] }
      = ['e', 'n', '_', 'U', 'S', '.', 'U', 'T', 'F', '-', '8', '@', 'L', 'a', 't', 'n'] :=
  ⟨rfl, c9_parse_then_format _ _ rfl⟩

/-- C10: `with_modifiers` applied to the empty map always succeeds and sets
the modifier to the present-but-empty string, so the serialized form of the
result ends with a bare at sign. -/
theorem c10_with_modifiers_empty (l : LocaleString) :
    with_modifiers l [] =
      Except.ok
        { language_code := l.language_code, territory := l.territory,
          code_set := l.code_set, modifier := some ([] : Str) }
    ∧ ∃ s0, format { language_code := l.language_code, territory := l.territory,
                     code_set := l.code_set, modifier := some ([] : Str) }
        = s0 ++ [SEP_MODIFIER] := by
  constructor
  · rfl
  · refine ⟨l.language_code
      ++ (match l.territory with
          | some v => SEP_TERRITORY :: v
          | none => [])
      ++ (match l.code_set with
          | some v => SEP_CODE_SET :: v
          | none => []), ?_⟩
    simp [format, List.append_assoc]

end LocaleTypes
